import Mathlib

/-!
Verification development for the Campus Life Planner repository.

The JavaScript sources are shallowly embedded: JS strings are modelled as
Lean `String`/`List Char` (sequences of Unicode scalar values), JS numbers
as `Rat` (durations and sums in this code stay within exact decimal
arithmetic), millisecond timestamps as `Int`, and parsed JSON values as an
inductive `JVal`.  Each definition is translated from the corresponding
source function, named after it where Lean allows.
-/

namespace CampusPlanner

/-- The ECMAScript whitespace class: the characters matched by `\s` and
removed by `String.prototype.trim` (WhiteSpace ∪ LineTerminator). -/
def jsWhitespace (c : Char) : Bool :=
  let n := c.toNat
  n = 9 || n = 10 || n = 11 || n = 12 || n = 13 || n = 32 ||
  n = 0xa0 || n = 0x1680 || (0x2000 ≤ n && n ≤ 0x200a) ||
  n = 0x2028 || n = 0x2029 || n = 0x202f || n = 0x205f ||
  n = 0x3000 || n = 0xfeff

/-- The ECMAScript LineTerminator class: the characters NOT matched by `.`
in a regular expression without the `s` flag. -/
def lineTerminator (c : Char) : Bool :=
  let n := c.toNat
  n = 10 || n = 13 || n = 0x2028 || n = 0x2029

theorem jsWhitespace_of_lineTerminator {c : Char} (h : lineTerminator c = true) :
    jsWhitespace c = true := by
  simp only [lineTerminator, jsWhitespace, Bool.or_eq_true, Bool.and_eq_true,
    decide_eq_true_eq] at *
  omega

/-- `String.prototype.trim`: strip leading and trailing `jsWhitespace`. -/
def jsTrim (s : List Char) : List Char :=
  ((s.dropWhile jsWhitespace).reverse.dropWhile jsWhitespace).reverse

/-- The test `/\s{2,}/.test(value)`: some two consecutive characters are
both whitespace (a run of length ≥ 2 exists iff an adjacent pair exists). -/
def hasWsRun2 : List Char → Bool
  | a :: b :: rest => (jsWhitespace a && jsWhitespace b) || hasWsRun2 (b :: rest)
  | _ => false

/-- The regex `/^\S(?:.*\S)?$/` of `PATTERNS.title`: a single non-whitespace
character, or a non-whitespace character, then interior characters that `.`
matches (anything but a line terminator), ending in a non-whitespace
character. -/
def titleRegexMatch : List Char → Bool
  | [] => false
  | [c] => !jsWhitespace c
  | c :: rest =>
      !jsWhitespace c && !jsWhitespace (rest.getLastD 'x') &&
      rest.dropLast.all (fun x => !lineTerminator x)

/-- `PATTERNS.title.test`. -/
def titleTest (value : List Char) : Bool :=
  if (jsTrim value).isEmpty then false
  else if !(value == jsTrim value) then false
  else if hasWsRun2 value then false
  else titleRegexMatch value

/-- Decimal digit characters (`\d`). -/
def isDigitCh (c : Char) : Bool := 48 ≤ c.toNat && c.toNat ≤ 57

/-- The integer part `(0|[1-9]\d*)` of `PATTERNS.duration.regex`. -/
def intPartOk : List Char → Bool
  | [] => false
  | [c] => isDigitCh c
  | c :: rest => 49 ≤ c.toNat && c.toNat ≤ 57 && rest.all isDigitCh

/-- `PATTERNS.duration.test`, the regex `/^(0|[1-9]\d*)(\.\d{1,2})?$/`. -/
def durationTest (value : List Char) : Bool :=
  match value.splitOn '.' with
  | [ip] => intPartOk ip
  | [ip, fp] => intPartOk ip && (fp.length = 1 || fp.length = 2) && fp.all isDigitCh
  | _ => false

/-- The regex `/^\d{4}-(0[1-9]|1[0-2])-(0[1-9]|[12]\d|3[01])$/` of
`PATTERNS.date`. -/
def dateShape (value : List Char) : Bool :=
  match value with
  | [y1, y2, y3, y4, h1, m1, m2, h2, d1, d2] =>
      isDigitCh y1 && isDigitCh y2 && isDigitCh y3 && isDigitCh y4 &&
      h1 = '-' && h2 = '-' &&
      ((m1 = '0' && 49 ≤ m2.toNat && m2.toNat ≤ 57) ||
        (m1 = '1' && 48 ≤ m2.toNat && m2.toNat ≤ 50)) &&
      ((d1 = '0' && 49 ≤ d2.toNat && d2.toNat ≤ 57) ||
        ((d1 = '1' || d1 = '2') && isDigitCh d2) ||
        (d1 = '3' && (d2 = '0' || d2 = '1')))
  | _ => false

/-- Numeric value of a digit character. -/
def digitVal (c : Char) : Nat := c.toNat - 48

/-- Proleptic-Gregorian leap year. -/
def isLeap (y : Nat) : Bool := (y % 4 = 0 && y % 100 ≠ 0) || y % 400 = 0

/-- Days in a month of the proleptic Gregorian calendar. -/
def daysInMonth (y m : Nat) : Nat :=
  if m = 2 then (if isLeap y then 29 else 28)
  else if m = 4 || m = 6 || m = 9 || m = 11 then 30
  else 31

/-- Parse a date-only ISO string `YYYY-MM-DD` to `(year, month, day)`,
succeeding exactly when the ECMAScript Date Time String Format accepts it:
four digits, two digits, two digits, month in 01–12 and day in
01–daysInMonth.  This models the host call `new Date(value)` on date-only
strings: engines yield an Invalid Date (NaN time value) exactly when the
month or the day is out of calendar range. -/
def parseISO (s : List Char) : Option (Nat × Nat × Nat) :=
  match s with
  | [y1, y2, y3, y4, h1, m1, m2, h2, d1, d2] =>
      if isDigitCh y1 && isDigitCh y2 && isDigitCh y3 && isDigitCh y4 &&
          h1 = '-' && h2 = '-' && isDigitCh m1 && isDigitCh m2 &&
          isDigitCh d1 && isDigitCh d2 then
        let y := 1000 * digitVal y1 + 100 * digitVal y2 + 10 * digitVal y3 + digitVal y4
        let m := 10 * digitVal m1 + digitVal m2
        let d := 10 * digitVal d1 + digitVal d2
        if 1 ≤ m && m ≤ 12 && 1 ≤ d && d ≤ daysInMonth y m then some (y, m, d)
        else none
      else none
  | _ => none

/-- `PATTERNS.date.test`: the regex shape, then `new Date(value)` must not
be NaN (modelled by `parseISO`). -/
def dateTest (value : List Char) : Bool :=
  dateShape value && (parseISO value).isSome

/-- Alphabetic characters (`[A-Za-z]`). -/
def isAlphaCh (c : Char) : Bool :=
  (65 ≤ c.toNat && c.toNat ≤ 90) || (97 ≤ c.toNat && c.toNat ≤ 122)

/-- DFA for the regex `/^[A-Za-z]+(?:[ -][A-Za-z]+)*$/` of `PATTERNS.tag`:
state 0 expects the start of an alphabetic run, state 1 is inside a run. -/
def tagScan : List Char → Nat → Bool
  | [], st => st = 1
  | c :: rest, st =>
      if isAlphaCh c then tagScan rest 1
      else if st = 1 && (c = ' ' || c = '-') then tagScan rest 0
      else false

/-- `PATTERNS.tag.test`. -/
def tagTest (value : List Char) : Bool := tagScan value 0

/-- Word characters (`\w`). -/
def isWordChar (c : Char) : Bool := isAlphaCh c || isDigitCh c || c = '_'

/-- ASCII-insensitive comparison used by the `i` flag on `\1`. -/
def lowerEq (a b : List Char) : Bool := a.map Char.toLower == b.map Char.toLower

/-- Fuel-indexed scanner for the regex `/\b(\w+)\s+\1\b/i` of
`PATTERNS.duplicateWord`: the regex matches exactly when two maximal word
runs separated by pure whitespace are equal up to ASCII case.  Each step
consumes at least the head character of a word, so fuel `s.length`
never runs out. -/
def dupScan : Nat → List Char → Bool
  | 0, _ => false
  | fuel + 1, s =>
      match (s.dropWhile fun c => !isWordChar c) with
      | [] => false
      | c :: rest =>
          let w1tail := rest.takeWhile isWordChar
          let r1 := rest.dropWhile isWordChar
          let gap := r1.takeWhile fun c => !isWordChar c
          let r2 := r1.dropWhile fun c => !isWordChar c
          let w2 := r2.takeWhile isWordChar
          (!w2.isEmpty && !gap.isEmpty && gap.all jsWhitespace &&
            lowerEq (c :: w1tail) w2) || dupScan fuel r1

/-- `PATTERNS.duplicateWord.test`: the field is valid when the regex does
NOT match. -/
def duplicateWordTest (value : List Char) : Bool := !dupScan value.length value

/-- One entry of the `PATTERNS` table: the effective test predicate and the
failure message. -/
structure Pattern where
  test : String → Bool
  message : String

/-- Own-key lookup in the `PATTERNS` object literal (the five rule
entries); `none` means no OWN property matches — JS bracket access then
falls back to the prototype chain, handled in `validateField`. -/
def lookupPattern (field : String) : Option Pattern :=
  if field = "title" then
    some ⟨fun v => titleTest v.data,
      "No leading/trailing spaces allowed. Must contain at least one non-space character."⟩
  else if field = "duration" then
    some ⟨fun v => durationTest v.data, "Enter a valid number (e.g., 30 or 45.5)"⟩
  else if field = "date" then
    some ⟨fun v => dateTest v.data, "Enter date in YYYY-MM-DD format (e.g., 2025-10-20)"⟩
  else if field = "tag" then
    some ⟨fun v => tagTest v.data,
      "Use only letters, spaces, and hyphens (e.g., Study-Group, Homework)"⟩
  else if field = "duplicateWord" then
    some ⟨fun v => duplicateWordTest v.data, "Duplicate word detected"⟩
  else none

/-- Result of `validateField`. -/
structure FieldResult where
  valid : Bool
  message : String
deriving DecidableEq

/-- The property names every object literal inherits from
`Object.prototype`, reachable by bracket access when no own key matches.
Each is truthy (a function, or for `__proto__` the prototype object
itself), and none has a callable `test` member. -/
def objectPrototypeProps : List String :=
  ["constructor", "hasOwnProperty", "isPrototypeOf", "propertyIsEnumerable",
    "toLocaleString", "toString", "valueOf", "__defineGetter__",
    "__defineSetter__", "__lookupGetter__", "__lookupSetter__", "__proto__"]

/-- `validateField(field, value)` from validators.js.  `PATTERNS[field]`
is a prototype-chain lookup: an own key yields its rule entry; a name
inherited from `Object.prototype` yields a truthy member, so the
`!pattern` early return does not fire and `pattern.test(value)` throws a
TypeError — modelled as `none`; only a name found nowhere on the chain
yields undefined and takes the `{valid: true, message: ""}` early
return. -/
def validateField (field : String) (value : String) : Option FieldResult :=
  match lookupPattern field with
  | some p =>
      let v := p.test value
      some ⟨v, if v then "" else p.message⟩
  | none =>
      if field ∈ objectPrototypeProps then none
      else some ⟨true, ""⟩

/-! ## Calendar arithmetic

`new Date(ms)` interprets its argument as milliseconds since the Unix
epoch and `toISOString` renders the proleptic Gregorian UTC date; the
conversions below are the standard civil-date/day-number algorithms. -/

/-- Milliseconds per day. -/
def msPerDay : Int := 86400000

/-- Day number (days since 1970-01-01) of a civil date. -/
def daysFromCivil (y m d : Int) : Int :=
  let y2 := if m ≤ 2 then y - 1 else y
  let era := y2.fdiv 400
  let yoe := y2 - era * 400
  let mp := if m > 2 then m - 3 else m + 9
  let doy := (153 * mp + 2).fdiv 5 + d - 1
  let doe := yoe * 365 + yoe.fdiv 4 - yoe.fdiv 100 + doy
  era * 146097 + doe - 719468

/-- Civil date `(year, month, day)` of a day number. -/
def civilFromDays (z0 : Int) : Int × Int × Int :=
  let z := z0 + 719468
  let era := z.fdiv 146097
  let doe := z - era * 146097
  let yoe := (doe - doe.fdiv 1460 + doe.fdiv 36524 - doe.fdiv 146096).fdiv 365
  let y := yoe + era * 400
  let doy := doe - (365 * yoe + yoe.fdiv 4 - yoe.fdiv 100)
  let mp := (5 * doy + 2).fdiv 153
  let d := doy - (153 * mp + 2).fdiv 5 + 1
  let m := if mp < 10 then mp + 3 else mp - 9
  (if m ≤ 2 then y + 1 else y, m, d)

/-- Zero-padded two-digit decimal (for in-range month/day numbers). -/
def pad2 (n : Int) : String := if n < 10 then "0" ++ toString n else toString n

/-- Zero-padded four-digit decimal (for years 0–9999, the range the
claims exercise). -/
def pad4 (n : Int) : String :=
  if n < 10 then "000" ++ toString n
  else if n < 100 then "00" ++ toString n
  else if n < 1000 then "0" ++ toString n
  else toString n

/-- ISO `YYYY-MM-DD` string of a day number. -/
def dayToISO (day : Int) : String :=
  match civilFromDays day with
  | (y, m, d) => pad4 y ++ "-" ++ pad2 m ++ "-" ++ pad2 d

/-- `new Date(t).toISOString().split('T')[0]`: the UTC calendar day of a
millisecond timestamp, as an ISO date string. -/
def toISODateStr (t : Int) : String := dayToISO (t.fdiv msPerDay)

/-- `date.toLocaleDateString('en-US', { weekday: 'short' })`, modelled at
UTC offset 0 (the host renders the weekday in the local timezone; the
embedding fixes the zone to UTC).  Day 0, 1970-01-01, was a Thursday. -/
def weekdayShort (day : Int) : String :=
  ["Sun", "Mon", "Tue", "Wed", "Thu", "Fri", "Sat"].getD ((day + 4).emod 7).toNat ""

/-- `new Date(s).getTime()` for a stored `dueDate` string: date-only ISO
strings parse to UTC midnight of that day; anything else yields an Invalid
Date (`none` here — every numeric comparison against NaN is false). -/
def jsDateParse (s : String) : Option Int :=
  (parseISO s.data).map fun ymd =>
    daysFromCivil (ymd.1 : Int) (ymd.2.1 : Int) (ymd.2.2 : Int) * msPerDay

/-! ## state.js -/

/-- A task record as produced by `addTask` in state.js. -/
structure Task where
  id : String
  title : String
  duration : Rat
  dueDate : String
  tag : String
  createdAt : String
  updatedAt : String
deriving DecidableEq

/-- One element of the `trendData` array. -/
structure TrendEntry where
  date : String
  label : String
  count : Nat
deriving DecidableEq

/-- The object returned by `calculateStats`. -/
structure Stats where
  total : Nat
  totalHours : String
  topTag : String
  recentTasks : Nat
  weeklyHours : Rat
  trendData : List TrendEntry
deriving DecidableEq

/-- `tagCounts[task.tag] = (tagCounts[task.tag] || 0) + 1`: bump the count
of a key in an insertion-ordered string-keyed object (tags are alphabetic
per the data model, never array-index keys, so JS object iteration order
is insertion order of first occurrence). -/
def bumpTag : List (String × Nat) → String → List (String × Nat)
  | [], t => [(t, 1)]
  | (k, n) :: rest, t =>
      if k = t then (k, n + 1) :: rest else (k, n) :: bumpTag rest t

/-- The `tagCounts` object after the `tasks.forEach` loop. -/
def tagCountsOf (tasks : List Task) : List (String × Nat) :=
  tasks.foldl (fun m t => bumpTag m t.tag) []

/-- `tagCounts[k]` (keys are unique in `tagCountsOf`). -/
def countOf (m : List (String × Nat)) (k : String) : Nat :=
  match m with
  | [] => 0
  | (k2, n) :: rest => if k2 = k then n else countOf rest k

/-- `Object.keys(tagCounts).reduce((a, b) => tagCounts[a] > tagCounts[b] ? a : b)`
with the empty-object sentinel (the source literal is the mojibake
rendering of an em dash). -/
def topTagOf (tasks : List Task) : String :=
  let m := tagCountsOf tasks
  match m.map Prod.fst with
  | [] => "â€”"
  | k :: ks => ks.foldl (fun a b => if countOf m a > countOf m b then a else b) k

/-- `(totalMinutes / 60).toFixed(1)`: one-decimal rendering, rounding to
the nearest tenth with ties away from zero upward (JsToFixed picks the
larger candidate; modelled in exact rational arithmetic). -/
def toFixed1 (x : Rat) : String :=
  let n : Int := (x * 10 + 1 / 2).floor
  let sign := if n < 0 then "-" else ""
  sign ++ toString (n.natAbs / 10) ++ "." ++ toString (n.natAbs % 10)

/-- The filter body used by both the `recentTasks` and the `weeklyMinutes`
passes: `taskDate >= sevenDaysAgo && taskDate <= now` on millisecond
timestamps, false when the parse is an Invalid Date. -/
def inRecentWindow (now : Int) (t : Task) : Bool :=
  match jsDateParse t.dueDate with
  | some ts => decide (now - 7 * msPerDay ≤ ts) && decide (ts ≤ now)
  | none => false

/-- `tasks.reduce((sum, task) => sum + task.duration, 0)`. -/
def sumDurations (ts : List Task) : Rat := ts.foldl (fun s t => s + t.duration) 0

/-- One iteration of the trend loop: the entry pushed for
`date = new Date(now.getTime() - i*24*60*60*1000)`. -/
def trendEntryAt (tasks : List Task) (now : Int) (i : Nat) : TrendEntry :=
  let t := now - (i : Int) * msPerDay
  let day := t.fdiv msPerDay
  let dateStr := dayToISO day
  { date := dateStr
    label := weekdayShort day
    count := (tasks.filter fun tk => tk.dueDate == dateStr).length }

/-- `calculateStats` from state.js, with the ambient `new Date()` read
made an explicit `now` parameter (millisecond timestamp). -/
def calculateStats (tasks : List Task) (now : Int) : Stats :=
  { total := tasks.length
    totalHours := toFixed1 (sumDurations tasks / 60)
    topTag := topTagOf tasks
    recentTasks := (tasks.filter (inRecentWindow now)).length
    weeklyHours := sumDurations (tasks.filter (inRecentWindow now)) / 60
    trendData := (List.range 7).map fun j => trendEntryAt tasks now (6 - j) }

/-- `Array.prototype.reduce` with a numeric accumulator: returns the sum
and the receiver array it leaves behind (reduce reads, never writes). -/
def jsReduceSum (arr : List Task) : Rat × List Task := (sumDurations arr, arr)

/-- The `tasks.forEach` tag-counting loop with the receiver threaded
through (forEach reads the array elements, never writes them). -/
def jsForEachTagCount (arr : List Task) : List (String × Nat) × List Task :=
  (tagCountsOf arr, arr)

/-- `tasks.filter(...)` with the receiver threaded through (filter
allocates a fresh array; the receiver is left behind unchanged). -/
def jsFilterWindow (now : Int) (arr : List Task) : List Task × List Task :=
  (arr.filter (inRecentWindow now), arr)

/-- The trend loop with the receiver threaded through its 7 filter
passes. -/
def jsTrendLoop (now : Int) (arr : List Task) : List TrendEntry × List Task :=
  ((List.range 7).map fun j => trendEntryAt arr now (6 - j), arr)

/-- State-passing embedding of `calculateStats`: every array operation of
the source is sequenced explicitly, threading the `state.tasks` array
through, so that non-mutation of the collection is a statement about the
embedding rather than an ambient assumption. -/
def calculateStatsST (tasks : List Task) (now : Int) : Stats × List Task :=
  let pTotal := (tasks.length, tasks)
  let pSum := jsReduceSum pTotal.2
  let pTags := jsForEachTagCount pSum.2
  let pRecent := jsFilterWindow now pTags.2
  let pWeekly := jsFilterWindow now pRecent.2
  let pTrend := jsTrendLoop now pWeekly.2
  ({ total := pTotal.1
     totalHours := toFixed1 (pSum.1 / 60)
     topTag := topTagOf pTags.2
     recentTasks := pRecent.1.length
     weeklyHours := sumDurations pWeekly.1 / 60
     trendData := pTrend.1 }, pTrend.2)

/-- The `updates` argument of `updateTask`: a JS object that may or may
not carry each property (spread semantics: a present property overrides
the task's). -/
structure TaskUpdates where
  id : Option String := none
  title : Option String := none
  duration : Option Rat := none
  dueDate : Option String := none
  tag : Option String := none
  createdAt : Option String := none
  updatedAt : Option String := none
deriving DecidableEq

/-- `{ ...task, ...updates, updatedAt: new Date().toISOString() }`: fields
present in `updates` override the task's, and `updatedAt` is then set to
the fresh timestamp unconditionally. -/
def spreadUpdate (t : Task) (u : TaskUpdates) (now : String) : Task :=
  { id := u.id.getD t.id
    title := u.title.getD t.title
    duration := u.duration.getD t.duration
    dueDate := u.dueDate.getD t.dueDate
    tag := u.tag.getD t.tag
    createdAt := u.createdAt.getD t.createdAt
    updatedAt := now }

/-- `Array.prototype.findIndex`, as an option (`none` for -1): the first
index whose element satisfies the predicate. -/
def findIndex (p : Task → Bool) : List Task → Option Nat
  | [] => none
  | t :: rest => if p t then some 0 else (findIndex p rest).map (· + 1)

/-- `updateTask(id, updates)` from state.js, with the ambient
`new Date().toISOString()` read made an explicit `now` parameter: find the
index, return `(tasks, none)` when it is -1, otherwise assign the spread
object at that index and return it.  The pair carries the resulting
`state.tasks` array and the function's return value. -/
def updateTask (tasks : List Task) (id : String) (u : TaskUpdates) (now : String) :
    List Task × Option Task :=
  match findIndex (fun t => t.id == id) tasks with
  | none => (tasks, none)
  | some i =>
      match tasks.get? i with
      | none => (tasks, none)
      | some t0 =>
          let t := spreadUpdate t0 u now
          (tasks.set i t, some t)

/-! ## storage.js (import/export)

`exportToJSON` is `JSON.stringify(tasks, null, 2)` and `importFromJSON`
begins with `JSON.parse`; `parse ∘ stringify` is the identity on JSON
values, so the round trip is modelled at the level of parsed JSON values
(`JVal`).  The `catch` branch of `importFromJSON` corresponds to input
text that is not JSON at all, which has no representation here. -/

/-- A parsed JSON value. -/
inductive JVal where
  | jstr (s : String)
  | jnum (q : Rat)
  | jbool (b : Bool)
  | jnull
  | jarr (xs : List JVal)
  | jobj (fields : List (String × JVal))

/-- Property access `task.k` on a parsed JSON value: objects look the key
up (later duplicate keys override earlier ones), other values have no own
properties so the access yields undefined (`none`; a record that is
`null` would instead throw, landing in the import's catch branch — still
a rejection). -/
def getField (v : JVal) (k : String) : Option JVal :=
  match v with
  | .jobj fs => fs.foldl (fun acc kv => if kv.1 == k then some kv.2 else acc) none
  | _ => none

/-- JS truthiness of a possibly-undefined parsed JSON value (`!x` is
`!truthy x`; JSON numbers are never NaN). -/
def truthy : Option JVal → Bool
  | none => false
  | some .jnull => false
  | some (.jbool b) => b
  | some (.jnum q) => !(q == 0)
  | some (.jstr s) => !(s == "")
  | some (.jarr _) => true
  | some (.jobj _) => true

/-- `typeof task.duration === 'number'`. -/
def isNumberField (v : Option JVal) : Bool :=
  match v with
  | some (.jnum _) => true
  | _ => false

/-- The error strings one record contributes in the
`data.forEach((task, index) => ...)` loop of `validateImportData`. -/
def recordErrors (i : Nat) (v : JVal) : List String :=
  (if !truthy (getField v "id") then ["Task " ++ toString i ++ ": missing id"] else []) ++
  (if !truthy (getField v "title") then ["Task " ++ toString i ++ ": missing title"] else []) ++
  (if !isNumberField (getField v "duration") then
    ["Task " ++ toString i ++ ": invalid duration"] else []) ++
  (if !truthy (getField v "dueDate") then ["Task " ++ toString i ++ ": missing dueDate"] else []) ++
  (if !truthy (getField v "tag") then ["Task " ++ toString i ++ ": missing tag"] else []) ++
  (if !truthy (getField v "createdAt") then
    ["Task " ++ toString i ++ ": missing createdAt"] else []) ++
  (if !truthy (getField v "updatedAt") then
    ["Task " ++ toString i ++ ": missing updatedAt"] else [])

/-- `validateImportData(data)` from storage.js: `(valid, errors)`. -/
def validateImportData (data : JVal) : Bool × List String :=
  match data with
  | .jarr xs =>
      let errs := (xs.enum.map fun p => recordErrors p.1 p.2).flatten
      (errs.isEmpty, errs)
  | _ => (false, ["Data must be an array"])

/-- The result object of `importFromJSON`. -/
structure ImportResult where
  success : Bool
  data : Option JVal
  errors : List String

/-- `importFromJSON(jsonString)` from storage.js, on the parsed value. -/
def importFromJSON (j : JVal) : ImportResult :=
  let v := validateImportData j
  if v.1 then ⟨true, some j, []⟩ else ⟨false, none, v.2⟩

/-- `encodeTask t` is the parse of the JSON text `JSON.stringify` emits
for one task record. -/
def encodeTask (t : Task) : JVal :=
  .jobj [("id", .jstr t.id), ("title", .jstr t.title), ("duration", .jnum t.duration),
    ("dueDate", .jstr t.dueDate), ("tag", .jstr t.tag),
    ("createdAt", .jstr t.createdAt), ("updatedAt", .jstr t.updatedAt)]

/-- `exportToJSON(tasks)` from storage.js, as the parsed value of the
serialized text. -/
def exportToJSON (ts : List Task) : JVal := .jarr (ts.map encodeTask)

/-- The import handler of main.js (`importFile` change listener, with the
confirmation dialog accepted): `state.replaceTasks(result.data)` runs only
when `result.success` holds, otherwise the collection is untouched. -/
def handleImport (tasks : List JVal) (j : JVal) : List JVal :=
  let result := importFromJSON j
  if result.success then
    match result.data with
    | some (.jarr xs) => xs
    | _ => tasks
  else tasks

/-! ## Claim-side (specification) definitions

These follow the wording of the spec sentences under examination, for
comparison with the definitions translated from the source above. -/

/-- Spec wording of C3: the count of tasks whose dueDate lies in the
window from now minus 7 days to now, inclusive at both ends, compared at
calendar-day granularity (UTC calendar day numbers), not time-of-day. -/
def specRecentCalendarCount (tasks : List Task) (now : Int) : Nat :=
  tasks.countP fun t =>
    match jsDateParse t.dueDate with
    | some ts =>
        decide ((now - 7 * msPerDay).fdiv msPerDay ≤ ts.fdiv msPerDay ∧
          ts.fdiv msPerDay ≤ now.fdiv msPerDay)
    | none => false

/-- Spec wording of C6: the number of missing/invalid fields of one
imported record — the claim expects exactly one human-readable error
per missing/invalid field per record.  The seven checks mirror the loop
body of `validateImportData`. -/
def failingChecks (v : JVal) : Nat :=
  (if !truthy (getField v "id") then 1 else 0) +
  (if !truthy (getField v "title") then 1 else 0) +
  (if !isNumberField (getField v "duration") then 1 else 0) +
  (if !truthy (getField v "dueDate") then 1 else 0) +
  (if !truthy (getField v "tag") then 1 else 0) +
  (if !truthy (getField v "createdAt") then 1 else 0) +
  (if !truthy (getField v "updatedAt") then 1 else 0)

/-- Decimal digit codes (code points) of `n` written with exactly `w`
digits, most significant first. -/
def codesOf : Nat → Nat → List Nat
  | 0, _ => []
  | w + 1, n => (48 + n / 10 ^ w % 10) :: codesOf w n

/-- Spec wording of C7: the code-point sequence of the string
`YYYY-MM-DD` (45 is the hyphen). -/
def dateCodes (y m d : Nat) : List Nat :=
  codesOf 4 y ++ 45 :: codesOf 2 m ++ 45 :: codesOf 2 d

/-- Sample task constructor used by concrete witnesses and
counterexamples. -/
def mkTask (id : String) (due : String) (tag : String) : Task :=
  { id := id, title := "Title", duration := 30, dueDate := due, tag := tag,
    createdAt := "2025-01-01T00:00:00.000Z", updatedAt := "2025-01-01T00:00:00.000Z" }

/-- The four tasks of C1's tie-break example, tags inserted in the order
B, A, A, B. -/
def tieTasks : List Task :=
  [mkTask "1" "2025-10-01" "B", mkTask "2" "2025-10-02" "A",
   mkTask "3" "2025-10-03" "A", mkTask "4" "2025-10-04" "B"]

/-- Noon UTC, 2025-10-08, in epoch milliseconds. -/
def noonOct8 : Int := daysFromCivil 2025 10 8 * msPerDay + 43200000

/-- An import record lacking the `dueDate` property. -/
def recNoDue : JVal :=
  .jobj [("id", .jstr "a"), ("title", .jstr "t"), ("duration", .jnum 30),
    ("tag", .jstr "g"), ("createdAt", .jstr "c"), ("updatedAt", .jstr "u")]

/-! ## Theorems -/

/-- C10 counterexample: "toString" is not in the rule table, yet
`validateField("toString", v)` does not return `{valid: true}`: the
bracket access finds the truthy `Object.prototype.toString`, the
`!pattern` guard passes, and `pattern.test(value)` throws a TypeError
(`none` in the model). -/
theorem validateField_proto_counterexample :
    (("toString" : String) ∉
      (["title", "duration", "date", "tag", "duplicateWord"] : List String)) ∧
    validateField "toString" "anything" = none ∧
    (none : Option FieldResult) ≠ some ⟨true, ""⟩ :=
  ⟨by decide, rfl, by decide⟩

/-- C10 amended: for every field name that is neither one of the five
rule-table keys nor a property name inherited from `Object.prototype`,
`validateField` returns `{valid: true, message: ""}` for every value
(unknown fields get no validation at all); for a name inherited from
`Object.prototype` (toString, valueOf, constructor, `__proto__`, ...)
the lookup finds the inherited truthy member and the call throws a
TypeError instead of returning. -/
theorem validateField_unknown_field (field : String)
    (h : field ∉ (["title", "duration", "date", "tag", "duplicateWord"] : List String)) :
    (field ∉ objectPrototypeProps →
      ∀ value : String, validateField field value = some ⟨true, ""⟩) ∧
    (field ∈ objectPrototypeProps →
      ∀ value : String, validateField field value = none) := by
  simp only [List.mem_cons, List.not_mem_nil, or_false, not_or] at h
  obtain ⟨h1, h2, h3, h4, h5⟩ := h
  constructor
  · intro h6 value
    simp [validateField, lookupPattern, h1, h2, h3, h4, h5, h6]
  · intro h6 value
    simp [validateField, lookupPattern, h1, h2, h3, h4, h5, h6]

theorem validateField_unknown_field_witness :
    (("tittle" : String) ∉
      (["title", "duration", "date", "tag", "duplicateWord"] : List String)) ∧
    ((("tittle" : String) ∉ objectPrototypeProps →
      ∀ value : String, validateField "tittle" value = some ⟨true, ""⟩) ∧
     (("tittle" : String) ∈ objectPrototypeProps →
      ∀ value : String, validateField "tittle" value = none)) :=
  ⟨by decide, validateField_unknown_field "tittle" (by decide)⟩

/-- C9: `calculateStats` is a pure, deterministic function of the task
collection and of "now": running it with the task array threaded through
every array operation leaves the collection unchanged and returns the
same statistics object as the pure reading, and a second run on the
collection left behind by the first yields an identical result. -/
theorem calculateStats_pure (ts : List Task) (now : Int) :
    calculateStatsST ts now = (calculateStats ts now, ts) ∧
      (calculateStatsST (calculateStatsST ts now).2 now).1 = (calculateStatsST ts now).1 :=
  ⟨rfl, rfl⟩

/-- C3 counterexample: with now at noon UTC on 2025-10-08, a task due
2025-10-01 — the calendar day seven days earlier, inside the claimed
inclusive day-granularity window — is NOT counted by the code
(`recentTasks = 0`), while the claim's calendar-value reading counts it. -/
theorem recentTasks_calendar_counterexample :
    (calculateStats [mkTask "1" "2025-10-01" "A"] noonOct8).recentTasks = 0 ∧
      specRecentCalendarCount [mkTask "1" "2025-10-01" "A"] noonOct8 = 1 := by
  constructor <;> rfl

/-- C3 amended: `recentTasks` counts tasks whose dueDate, parsed as UTC
midnight of that calendar day, lies in `[now − 7·86400000 ms, now]` by
millisecond-timestamp comparison (so a task due on the calendar day seven
days before now is excluded whenever now is past UTC midnight), and
`weeklyHours` is sum(duration)/60 over exactly that same
timestamp-compared window. -/
theorem recentTasks_timestamp_window (tasks : List Task) (now : Int) :
    (calculateStats tasks now).recentTasks =
      (tasks.countP fun t =>
        match jsDateParse t.dueDate with
        | some ts => decide (now - 7 * msPerDay ≤ ts ∧ ts ≤ now)
        | none => false) ∧
    (calculateStats tasks now).weeklyHours =
      sumDurations (tasks.filter fun t =>
        match jsDateParse t.dueDate with
        | some ts => decide (now - 7 * msPerDay ≤ ts ∧ ts ≤ now)
        | none => false) / 60 := by
  have hpred : ∀ t : Task,
      inRecentWindow now t =
        (fun t : Task =>
          match jsDateParse t.dueDate with
          | some ts => decide (now - 7 * msPerDay ≤ ts ∧ ts ≤ now)
          | none => false) t := by
    intro t
    simp only [inRecentWindow]
    cases jsDateParse t.dueDate with
    | none => rfl
    | some ts => simp [Bool.decide_and]
  constructor
  · simp only [calculateStats, List.countP_eq_length_filter]
    congr 1
    exact List.filter_congr fun t _ => hpred t
  · simp only [calculateStats]
    congr 2
    exact List.filter_congr fun t _ => hpred t

/-- C1 counterexample: for tasks tagged B, A, A, B in that insertion
order (counts tied at 2), the pairwise left-to-right reduction with the
strict comparison `tagCounts[a] > tagCounts[b]` keeps the LATER key on a
tie, so `topTag` is "A", not "B" as the claim states. -/
theorem topTag_tie_counterexample :
    (calculateStats tieTasks 0).topTag = "A" ∧ ("A" : String) ≠ "B" :=
  ⟨rfl, by decide⟩

/-- C8 counterexample: `updateTask` spreads `updates` after the existing
task, so an `updates` object carrying an `id` property overwrites the id:
updating the task with id "a" by `{id: "b"}` leaves the collection with a
task whose id is "b". -/
theorem updateTask_id_overwrite_counterexample :
    ((updateTask [mkTask "a" "2025-10-01" "A"] "a" { id := some "b" } "T").1.map Task.id
      = ["b"]) ∧ ("b" : String) ≠ "a" :=
  ⟨rfl, by decide⟩

theorem fdiv_shift (now k : Int) :
    (now - k * msPerDay).fdiv msPerDay = now.fdiv msPerDay - k := by
  rw [Int.fdiv_eq_ediv _ (by norm_num [msPerDay]), Int.fdiv_eq_ediv _ (by norm_num [msPerDay])]
  rw [sub_eq_add_neg, ← neg_mul, Int.add_mul_ediv_right _ _ (by norm_num [msPerDay])]
  ring

/-- C4: for every task collection and every now, `trendData` has exactly
7 entries, ordered oldest to newest, one per UTC calendar day from
today−6 to today, each counting the tasks whose stored dueDate string
equals that day's ISO date string (string equality). -/
theorem trendData_seven_days (tasks : List Task) (now : Int) :
    (calculateStats tasks now).trendData.length = 7 ∧
    (calculateStats tasks now).trendData =
      (List.range 7).map (fun j =>
        { date := dayToISO (now.fdiv msPerDay - 6 + (j : Int))
          label := weekdayShort (now.fdiv msPerDay - 6 + (j : Int))
          count := tasks.countP fun t =>
            t.dueDate == dayToISO (now.fdiv msPerDay - 6 + (j : Int)) }) := by
  have hmap : (calculateStats tasks now).trendData =
      (List.range 7).map (fun j =>
        { date := dayToISO (now.fdiv msPerDay - 6 + (j : Int))
          label := weekdayShort (now.fdiv msPerDay - 6 + (j : Int))
          count := tasks.countP fun t =>
            t.dueDate == dayToISO (now.fdiv msPerDay - 6 + (j : Int)) }) := by
    simp only [calculateStats]
    refine List.map_congr_left fun j hj => ?_
    rw [List.mem_range] at hj
    have hcast : ((6 - j : Nat) : Int) = 6 - (j : Int) := by omega
    simp only [trendEntryAt, hcast, fdiv_shift, List.countP_eq_length_filter]
    have harith : now.fdiv msPerDay - (6 - (j : Int)) = now.fdiv msPerDay - 6 + (j : Int) := by
      ring
    rw [harith]
  exact ⟨by rw [hmap]; simp, hmap⟩

theorem findIndex_some_get? {p : Task → Bool} :
    ∀ {l : List Task} {i : Nat}, findIndex p l = some i →
      ∃ a, l.get? i = some a ∧ p a = true := by
  intro l
  induction l with
  | nil => intro i h; simp [findIndex] at h
  | cons t rest ih =>
    intro i h
    simp only [findIndex] at h
    by_cases hp : p t
    · simp only [hp, if_pos] at h
      cases h
      exact ⟨t, rfl, hp⟩
    · simp only [hp, if_neg, Bool.false_eq_true, not_false_iff, ite_false] at h
      obtain ⟨j, hj, rfl⟩ := Option.map_eq_some'.mp h
      obtain ⟨a, ha, hpa⟩ := ih hj
      exact ⟨a, ha, hpa⟩

/-- C8 amended: for an existing task found at index `i`, provided the
`updates` object does not itself carry an `id` property (as at every call
site in the repository), `updateTask` replaces exactly the task at `i`
with the spread of the old task and the updates, keeps its id, refreshes
its `updatedAt` to now, and leaves every other index untouched.  (An
`updates` object carrying `id` overwrites the id — see the
counterexample.) -/
theorem updateTask_frame (tasks : List Task) (id : String) (u : TaskUpdates)
    (now : String) (i : Nat)
    (hfind : findIndex (fun t => t.id == id) tasks = some i) (hid : u.id = none) :
    ∃ t0, tasks.get? i = some t0 ∧
      (updateTask tasks id u now).1 = tasks.set i (spreadUpdate t0 u now) ∧
      (updateTask tasks id u now).2 = some (spreadUpdate t0 u now) ∧
      (spreadUpdate t0 u now).id = t0.id ∧
      (spreadUpdate t0 u now).updatedAt = now ∧
      ∀ j, j ≠ i → (updateTask tasks id u now).1.get? j = tasks.get? j := by
  obtain ⟨t0, hget, hp⟩ := findIndex_some_get? hfind
  have hval : updateTask tasks id u now =
      (tasks.set i (spreadUpdate t0 u now), some (spreadUpdate t0 u now)) := by
    simp only [updateTask, hfind, hget]
  refine ⟨t0, hget, by rw [hval], by rw [hval], by simp [spreadUpdate, hid], rfl, ?_⟩
  intro j hj
  rw [hval]
  simp only [List.get?_eq_getElem?]
  exact List.getElem?_set_ne (fun hc => hj hc.symm)

theorem updateTask_frame_witness :
    (findIndex (fun t => t.id == "a")
        [mkTask "a" "2025-10-01" "A", mkTask "c" "2025-10-02" "B"] = some 0) ∧
    (({ title := some "New" } : TaskUpdates).id = none) ∧
    (∃ t0,
      ([mkTask "a" "2025-10-01" "A", mkTask "c" "2025-10-02" "B"].get? 0 = some t0) ∧
      (updateTask [mkTask "a" "2025-10-01" "A", mkTask "c" "2025-10-02" "B"] "a"
          { title := some "New" } "T").1 =
        [mkTask "a" "2025-10-01" "A", mkTask "c" "2025-10-02" "B"].set 0
          (spreadUpdate t0 { title := some "New" } "T") ∧
      (updateTask [mkTask "a" "2025-10-01" "A", mkTask "c" "2025-10-02" "B"] "a"
          { title := some "New" } "T").2 = some (spreadUpdate t0 { title := some "New" } "T") ∧
      (spreadUpdate t0 { title := some "New" } "T").id = t0.id ∧
      (spreadUpdate t0 { title := some "New" } "T").updatedAt = "T" ∧
      ∀ j, j ≠ 0 →
        (updateTask [mkTask "a" "2025-10-01" "A", mkTask "c" "2025-10-02" "B"] "a"
            { title := some "New" } "T").1.get? j =
          [mkTask "a" "2025-10-01" "A", mkTask "c" "2025-10-02" "B"].get? j) :=
  ⟨rfl, rfl,
    updateTask_frame [mkTask "a" "2025-10-01" "A", mkTask "c" "2025-10-02" "B"]
      "a" { title := some "New" } "T" 0 rfl rfl⟩

theorem reduce_last_max (cnt : String → Nat) :
    ∀ (l : List String) (a : String),
      ∃ l1 l2,
        a :: l = l1 ++ (l.foldl (fun x y => if cnt x > cnt y then x else y) a) :: l2 ∧
        (∀ k ∈ a :: l, cnt k ≤ cnt (l.foldl (fun x y => if cnt x > cnt y then x else y) a)) ∧
        (∀ k ∈ l2, cnt k < cnt (l.foldl (fun x y => if cnt x > cnt y then x else y) a)) := by
  intro l
  induction l with
  | nil => exact fun a => ⟨[], [], rfl, by simp, by simp⟩
  | cons b l ih =>
    intro a
    obtain ⟨l1, l2, hdec, hmax, hlt⟩ :=
      ih (if cnt a > cnt b then a else b)
    have hfold : (b :: l).foldl (fun x y => if cnt x > cnt y then x else y) a =
        l.foldl (fun x y => if cnt x > cnt y then x else y)
          (if cnt a > cnt b then a else b) := rfl
    rw [hfold]
    set r := l.foldl (fun x y => if cnt x > cnt y then x else y)
      (if cnt a > cnt b then a else b) with hr
    have hab_a : cnt a ≤ cnt (if cnt a > cnt b then a else b) := by
      split <;> omega
    have hab_b : cnt b ≤ cnt (if cnt a > cnt b then a else b) := by
      split <;> omega
    have hfr : cnt (if cnt a > cnt b then a else b) ≤ cnt r :=
      hmax _ (List.mem_cons_self _ _)
    cases l1 with
    | nil =>
      simp only [List.nil_append, List.cons.injEq] at hdec
      obtain ⟨h1, h2⟩ := hdec
      subst h2
      by_cases hc : cnt a > cnt b
      · rw [if_pos hc] at h1
        have hbr : cnt b < cnt r := by rw [← h1]; exact hc
        refine ⟨[], b :: l, by rw [List.nil_append, ← h1], ?_, ?_⟩
        · intro x hx
          rcases List.mem_cons.mp hx with rfl | hx2
          · exact le_of_eq (by rw [h1])
          · rcases List.mem_cons.mp hx2 with rfl | hx3
            · exact le_of_lt hbr
            · exact le_of_lt (hlt x hx3)
        · intro x hx
          rcases List.mem_cons.mp hx with rfl | hx2
          · exact hbr
          · exact hlt x hx2
      · rw [if_neg hc] at h1
        refine ⟨[a], l, ?_, ?_, hlt⟩
        · rw [List.cons_append, List.nil_append, ← h1]
        · intro x hx
          rcases List.mem_cons.mp hx with rfl | hx2
          · exact le_trans hab_a hfr
          · rcases List.mem_cons.mp hx2 with rfl | hx3
            · exact le_trans hab_b hfr
            · exact hmax x (List.mem_cons_of_mem _ hx3)
    | cons c l1 =>
      simp only [List.cons_append, List.cons.injEq] at hdec
      obtain ⟨h1, h2⟩ := hdec
      refine ⟨a :: b :: l1, l2, by rw [h2]; rfl, ?_, hlt⟩
      intro x hx
      rcases List.mem_cons.mp hx with rfl | hx2
      · exact le_trans hab_a hfr
      · rcases List.mem_cons.mp hx2 with rfl | hx3
        · exact le_trans hab_b hfr
        · exact hmax x (List.mem_cons_of_mem _ hx3)

theorem bumpTag_ne_nil (m : List (String × Nat)) (t : String) : bumpTag m t ≠ [] := by
  cases m with
  | nil => simp [bumpTag]
  | cons p rest =>
    obtain ⟨k, n⟩ := p
    simp only [bumpTag]
    split <;> simp

theorem tagCountsOf_ne_nil {tasks : List Task} (h : tasks ≠ []) :
    tagCountsOf tasks ≠ [] := by
  have aux : ∀ (ts : List Task) (m : List (String × Nat)), m ≠ [] →
      ts.foldl (fun m t => bumpTag m t.tag) m ≠ [] := by
    intro ts
    induction ts with
    | nil => intro m hm; exact hm
    | cons t ts ih => intro m _; exact ih (bumpTag m t.tag) (bumpTag_ne_nil m t.tag)
  cases tasks with
  | nil => exact absurd rfl h
  | cons t ts =>
    show (t :: ts).foldl (fun m t => bumpTag m t.tag) [] ≠ []
    rw [List.foldl_cons]
    exact aux ts _ (bumpTag_ne_nil [] t.tag)

/-- C1 amended: `topTag` is a tag of maximal occurrence count, and when
two or more tags tie for the maximum, the tag LAST encountered in the
frequency map's insertion order wins under the pairwise left-to-right
reduction with the strict comparison `tagCounts[a] > tagCounts[b]` (every
key listed after the winner has strictly smaller count); in particular
for tasks tagged B, A, A, B in that insertion order, topTag = "A". -/
theorem topTag_is_last_max (tasks : List Task) (now : Int) (h : tasks ≠ []) :
    ∃ l1 l2,
      (tagCountsOf tasks).map Prod.fst =
        l1 ++ (calculateStats tasks now).topTag :: l2 ∧
      (∀ k ∈ (tagCountsOf tasks).map Prod.fst,
        countOf (tagCountsOf tasks) k ≤
          countOf (tagCountsOf tasks) ((calculateStats tasks now).topTag)) ∧
      (∀ k ∈ l2,
        countOf (tagCountsOf tasks) k <
          countOf (tagCountsOf tasks) ((calculateStats tasks now).topTag)) := by
  have hkeys : (tagCountsOf tasks).map Prod.fst ≠ [] := by
    intro hc
    exact tagCountsOf_ne_nil h (List.map_eq_nil_iff.mp hc)
  cases hk : (tagCountsOf tasks).map Prod.fst with
  | nil => exact absurd hk hkeys
  | cons k ks =>
    have htop : (calculateStats tasks now).topTag =
        ks.foldl (fun a b =>
          if countOf (tagCountsOf tasks) a > countOf (tagCountsOf tasks) b then a else b) k := by
      show topTagOf tasks = _
      simp only [topTagOf]
      rw [hk]
    obtain ⟨l1, l2, hd, hm, hl⟩ := reduce_last_max (countOf (tagCountsOf tasks)) ks k
    refine ⟨l1, l2, ?_, ?_, ?_⟩
    · rw [htop]; exact hd
    · intro x hx
      rw [htop]
      exact hm x hx
    · intro x hx
      rw [htop]
      exact hl x hx

theorem topTag_is_last_max_witness :
    (tieTasks ≠ []) ∧
    (∃ l1 l2,
      (tagCountsOf tieTasks).map Prod.fst =
        l1 ++ (calculateStats tieTasks 0).topTag :: l2 ∧
      (∀ k ∈ (tagCountsOf tieTasks).map Prod.fst,
        countOf (tagCountsOf tieTasks) k ≤
          countOf (tagCountsOf tieTasks) ((calculateStats tieTasks 0).topTag)) ∧
      (∀ k ∈ l2,
        countOf (tagCountsOf tieTasks) k <
          countOf (tagCountsOf tieTasks) ((calculateStats tieTasks 0).topTag))) :=
  ⟨by simp [tieTasks], topTag_is_last_max tieTasks 0 (by simp [tieTasks])⟩

theorem recordErrors_encodeTask (i : Nat) (t : Task)
    (h1 : t.id ≠ "") (h2 : t.title ≠ "") (h3 : t.tag ≠ "") (h4 : t.dueDate ≠ "")
    (h5 : t.createdAt ≠ "") (h6 : t.updatedAt ≠ "") :
    recordErrors i (encodeTask t) = [] := by
  have g1 : getField (encodeTask t) "id" = some (.jstr t.id) := rfl
  have g2 : getField (encodeTask t) "title" = some (.jstr t.title) := rfl
  have g3 : getField (encodeTask t) "duration" = some (.jnum t.duration) := rfl
  have g4 : getField (encodeTask t) "dueDate" = some (.jstr t.dueDate) := rfl
  have g5 : getField (encodeTask t) "tag" = some (.jstr t.tag) := rfl
  have g6 : getField (encodeTask t) "createdAt" = some (.jstr t.createdAt) := rfl
  have g7 : getField (encodeTask t) "updatedAt" = some (.jstr t.updatedAt) := rfl
  simp [recordErrors, g1, g2, g3, g4, g5, g6, g7, truthy, isNumberField,
    h1, h2, h3, h4, h5, h6]

/-- C5: exporting any collection of well-formed task records (non-empty
id, title, tag, dueDate, createdAt, updatedAt; numeric duration is forced
by the record type) and importing the result succeeds with an empty error
list, and the imported data is exactly the exported collection
(`encodeTask` is injective, so the records are reproduced exactly). -/
theorem import_export_roundtrip (ts : List Task)
    (h : ∀ t ∈ ts, t.id ≠ "" ∧ t.title ≠ "" ∧ t.tag ≠ "" ∧ t.dueDate ≠ "" ∧
      t.createdAt ≠ "" ∧ t.updatedAt ≠ "") :
    importFromJSON (exportToJSON ts) =
      { success := true, data := some (exportToJSON ts), errors := [] } ∧
    Function.Injective encodeTask := by
  constructor
  · have herrs : ((ts.map encodeTask).enum.map fun p => recordErrors p.1 p.2).flatten = [] := by
      rw [List.flatten_eq_nil_iff]
      intro l hl
      rw [List.enum_map, List.map_map] at hl
      obtain ⟨⟨i, t⟩, hmem, rfl⟩ := List.mem_map.mp hl
      have ht : t ∈ ts := by
        have := List.mem_enum_iff_getElem?.mp hmem
        exact List.getElem?_mem this
      obtain ⟨h1, h2, h3, h4, h5, h6⟩ := h t ht
      exact recordErrors_encodeTask i t h1 h2 h3 h4 h5 h6
    have hval : validateImportData (exportToJSON ts) = (true, []) := by
      simp only [exportToJSON, validateImportData]
      rw [herrs]
      rfl
    simp only [importFromJSON, hval]
    rfl
  · intro t1 t2 heq
    simp only [encodeTask, JVal.jobj.injEq, List.cons.injEq, Prod.mk.injEq,
      JVal.jstr.injEq, JVal.jnum.injEq, true_and, and_true] at heq
    obtain ⟨e1, e2, e3, e4, e5, e6, e7⟩ := heq
    cases t1
    cases t2
    simp_all

set_option maxHeartbeats 1000000 in
theorem import_export_roundtrip_witness :
    (∀ t ∈ [mkTask "a" "2025-10-01" "A"],
      t.id ≠ "" ∧ t.title ≠ "" ∧ t.tag ≠ "" ∧ t.dueDate ≠ "" ∧
        t.createdAt ≠ "" ∧ t.updatedAt ≠ "") ∧
    (importFromJSON (exportToJSON [mkTask "a" "2025-10-01" "A"]) =
      { success := true, data := some (exportToJSON [mkTask "a" "2025-10-01" "A"]),
        errors := [] } ∧
      Function.Injective encodeTask) :=
  ⟨by decide, import_export_roundtrip [mkTask "a" "2025-10-01" "A"] (by decide)⟩

theorem recordErrors_length (i : Nat) (v : JVal) :
    (recordErrors i v).length = failingChecks v := by
  have h : ∀ (c : Prop) (inst : Decidable c) (m : String),
      (@ite _ c inst [m] ([] : List String)).length = @ite _ c inst 1 0 := by
    intro c inst m
    split <;> rfl
  simp only [recordErrors, failingChecks, List.length_append, h]

theorem msg_in_flatten {xs : List JVal} {j : Nat} {w : JVal} {msg : String}
    (hget : xs.get? j = some w) (hmem : msg ∈ recordErrors j w) :
    msg ∈ (xs.enum.map fun p => recordErrors p.1 p.2).flatten := by
  have hmem_enum : (j, w) ∈ xs.enum := by
    rw [List.mem_enum_iff_getElem?]
    rw [List.get?_eq_getElem?] at hget
    exact hget
  have hmem2 : recordErrors j w ∈ xs.enum.map (fun p => recordErrors p.1 p.2) := by
    have := List.mem_map_of_mem (fun p : Nat × JVal => recordErrors p.1 p.2) hmem_enum
    exact this
  exact List.mem_flatten.mpr ⟨recordErrors j w, hmem2, hmem⟩

set_option maxHeartbeats 1000000 in
/-- C6: when any record of an imported array misses a required field
(id, title, dueDate, tag, createdAt, updatedAt) or has a non-numeric
duration, `importFromJSON` returns `success = false` with a non-empty
error list that holds exactly one human-readable error per
missing/invalid field per record (every failing field of every record
contributes its message and the total length is the sum of failing
checks), and the controller's import handler leaves the existing task
collection untouched (all-or-nothing). -/
theorem import_invalid_record_rejected (xs : List JVal) (i : Nat) (v : JVal)
    (hget : xs.get? i = some v)
    (hbad : truthy (getField v "id") = false ∨ truthy (getField v "title") = false ∨
      isNumberField (getField v "duration") = false ∨
      truthy (getField v "dueDate") = false ∨ truthy (getField v "tag") = false ∨
      truthy (getField v "createdAt") = false ∨
      truthy (getField v "updatedAt") = false) :
    (importFromJSON (.jarr xs)).success = false ∧
    (importFromJSON (.jarr xs)).errors ≠ [] ∧
    (importFromJSON (.jarr xs)).errors.length = (xs.map failingChecks).sum ∧
    (∀ j w, xs.get? j = some w →
      (truthy (getField w "id") = false →
        ("Task " ++ toString j ++ ": missing id") ∈ (importFromJSON (.jarr xs)).errors) ∧
      (truthy (getField w "title") = false →
        ("Task " ++ toString j ++ ": missing title") ∈ (importFromJSON (.jarr xs)).errors) ∧
      (isNumberField (getField w "duration") = false →
        ("Task " ++ toString j ++ ": invalid duration") ∈ (importFromJSON (.jarr xs)).errors) ∧
      (truthy (getField w "dueDate") = false →
        ("Task " ++ toString j ++ ": missing dueDate") ∈ (importFromJSON (.jarr xs)).errors) ∧
      (truthy (getField w "tag") = false →
        ("Task " ++ toString j ++ ": missing tag") ∈ (importFromJSON (.jarr xs)).errors) ∧
      (truthy (getField w "createdAt") = false →
        ("Task " ++ toString j ++ ": missing createdAt") ∈ (importFromJSON (.jarr xs)).errors) ∧
      (truthy (getField w "updatedAt") = false →
        ("Task " ++ toString j ++ ": missing updatedAt") ∈ (importFromJSON (.jarr xs)).errors)) ∧
    (∀ cur : List JVal, handleImport cur (.jarr xs) = cur) := by
  have hmsg : ∃ msg, msg ∈ recordErrors i v := by
    rcases hbad with h | h | h | h | h | h | h
    · exact ⟨"Task " ++ toString i ++ ": missing id", by simp [recordErrors, h]⟩
    · exact ⟨"Task " ++ toString i ++ ": missing title", by simp [recordErrors, h]⟩
    · exact ⟨"Task " ++ toString i ++ ": invalid duration", by simp [recordErrors, h]⟩
    · exact ⟨"Task " ++ toString i ++ ": missing dueDate", by simp [recordErrors, h]⟩
    · exact ⟨"Task " ++ toString i ++ ": missing tag", by simp [recordErrors, h]⟩
    · exact ⟨"Task " ++ toString i ++ ": missing createdAt", by simp [recordErrors, h]⟩
    · exact ⟨"Task " ++ toString i ++ ": missing updatedAt", by simp [recordErrors, h]⟩
  obtain ⟨msg, hmem⟩ := hmsg
  have herrs : msg ∈ (xs.enum.map fun p => recordErrors p.1 p.2).flatten :=
    msg_in_flatten hget hmem
  have hne : ((xs.enum.map fun p => recordErrors p.1 p.2).flatten) ≠ [] := by
    intro hc
    rw [hc] at herrs
    exact List.not_mem_nil _ herrs
  have hval : validateImportData (.jarr xs) =
      (false, (xs.enum.map fun p => recordErrors p.1 p.2).flatten) := by
    simp only [validateImportData]
    rw [List.isEmpty_eq_false.mpr hne]
  have hres : importFromJSON (.jarr xs) =
      ⟨false, none, (xs.enum.map fun p => recordErrors p.1 p.2).flatten⟩ := by
    simp only [importFromJSON, hval]
    rfl
  refine ⟨by rw [hres], by rw [hres]; exact hne, ?_, ?_, ?_⟩
  · rw [hres]
    show ((xs.enum.map fun p => recordErrors p.1 p.2).flatten).length = _
    rw [List.length_flatten, List.map_map]
    have hc : ∀ p ∈ xs.enum,
        (List.length ∘ fun p : Nat × JVal => recordErrors p.1 p.2) p =
          (failingChecks ∘ Prod.snd) p := by
      intro p _
      exact recordErrors_length p.1 p.2
    rw [List.map_congr_left hc, ← List.map_map, List.enum_map_snd]
  · intro j w hgetw
    refine ⟨?_, ?_, ?_, ?_, ?_, ?_, ?_⟩ <;>
      · intro hf
        rw [hres]
        exact msg_in_flatten hgetw (by simp [recordErrors, hf])
  · intro cur
    simp only [handleImport, hres]
    rfl

theorem import_invalid_record_rejected_witness :
    ([recNoDue].get? 0 = some recNoDue) ∧
    (truthy (getField recNoDue "dueDate") = false) ∧
    ((importFromJSON (.jarr [recNoDue])).success = false ∧
      (importFromJSON (.jarr [recNoDue])).errors ≠ [] ∧
      (importFromJSON (.jarr [recNoDue])).errors.length =
        ([recNoDue].map failingChecks).sum ∧
      (∀ j w, [recNoDue].get? j = some w →
        (truthy (getField w "id") = false →
          ("Task " ++ toString j ++ ": missing id") ∈
            (importFromJSON (.jarr [recNoDue])).errors) ∧
        (truthy (getField w "title") = false →
          ("Task " ++ toString j ++ ": missing title") ∈
            (importFromJSON (.jarr [recNoDue])).errors) ∧
        (isNumberField (getField w "duration") = false →
          ("Task " ++ toString j ++ ": invalid duration") ∈
            (importFromJSON (.jarr [recNoDue])).errors) ∧
        (truthy (getField w "dueDate") = false →
          ("Task " ++ toString j ++ ": missing dueDate") ∈
            (importFromJSON (.jarr [recNoDue])).errors) ∧
        (truthy (getField w "tag") = false →
          ("Task " ++ toString j ++ ": missing tag") ∈
            (importFromJSON (.jarr [recNoDue])).errors) ∧
        (truthy (getField w "createdAt") = false →
          ("Task " ++ toString j ++ ": missing createdAt") ∈
            (importFromJSON (.jarr [recNoDue])).errors) ∧
        (truthy (getField w "updatedAt") = false →
          ("Task " ++ toString j ++ ": missing updatedAt") ∈
            (importFromJSON (.jarr [recNoDue])).errors)) ∧
      (∀ cur : List JVal, handleImport cur (.jarr [recNoDue]) = cur)) :=
  ⟨rfl, rfl, import_invalid_record_rejected [recNoDue] 0 recNoDue rfl
    (Or.inr (Or.inr (Or.inr (Or.inl rfl))))⟩

theorem hasWsRun2_iff (s : List Char) :
    hasWsRun2 s = true ↔
      ∃ i, i + 1 < s.length ∧ jsWhitespace (s.getD i 'x') = true ∧
        jsWhitespace (s.getD (i + 1) 'x') = true := by
  induction s with
  | nil => simp [hasWsRun2]
  | cons a t ih =>
    cases t with
    | nil =>
      simp only [hasWsRun2, List.length_cons, List.length_nil]
      constructor
      · intro h; cases h
      · rintro ⟨i, hi, _⟩; omega
    | cons b rest =>
      have hstep : hasWsRun2 (a :: b :: rest) =
          ((jsWhitespace a && jsWhitespace b) || hasWsRun2 (b :: rest)) := rfl
      rw [hstep]
      simp only [Bool.or_eq_true, Bool.and_eq_true]
      constructor
      · intro h
        rcases h with ⟨hw1, hw2⟩ | h2
        · exact ⟨0, by simp, by simpa using hw1, by simpa using hw2⟩
        · obtain ⟨i, hi, hw1, hw2⟩ := ih.mp h2
          refine ⟨i + 1, ?_, ?_, ?_⟩
          · simp only [List.length_cons] at hi ⊢; omega
          · simpa using hw1
          · simpa using hw2
      · rintro ⟨i, hi, hw1, hw2⟩
        cases i with
        | zero =>
          left
          exact ⟨by simpa using hw1, by simpa using hw2⟩
        | succ j =>
          right
          apply ih.mpr
          refine ⟨j, ?_, ?_, ?_⟩
          · simp only [List.length_cons] at hi ⊢; omega
          · simpa using hw1
          · simpa using hw2

theorem jsTrim_length_le (s : List Char) :
    (jsTrim s).length ≤ (s.dropWhile jsWhitespace).length := by
  calc (jsTrim s).length
      = ((s.dropWhile jsWhitespace).reverse.dropWhile jsWhitespace).length := by
        simp [jsTrim]
    _ ≤ (s.dropWhile jsWhitespace).reverse.length :=
        (List.dropWhile_suffix _).sublist.length_le
    _ = (s.dropWhile jsWhitespace).length := List.length_reverse _

theorem dropWhile_fix_head {p : Char → Bool} {a : Char} {t : List Char}
    (h : (a :: t).dropWhile p = a :: t) : p a = false := by
  by_contra hw
  rw [Bool.not_eq_false] at hw
  rw [List.dropWhile_cons, if_pos hw] at h
  have hle := (List.dropWhile_suffix (l := t) p).sublist.length_le
  rw [h] at hle
  simp at hle

theorem trim_fix_dropWhile {s : List Char} (h : s = jsTrim s) :
    s.dropWhile jsWhitespace = s := by
  have h1 := jsTrim_length_le s
  have h2 := (List.dropWhile_suffix (l := s) jsWhitespace).sublist.length_le
  rw [← h] at h1
  exact (List.dropWhile_suffix _).eq_of_length (by omega)

theorem trim_fix_reverse {s : List Char} (h : s = jsTrim s) :
    s.reverse.dropWhile jsWhitespace = s.reverse := by
  have hd := trim_fix_dropWhile h
  have hs : s = (s.reverse.dropWhile jsWhitespace).reverse := by
    conv_lhs => rw [h]
    simp only [jsTrim, hd]
  calc s.reverse.dropWhile jsWhitespace
      = ((s.reverse.dropWhile jsWhitespace).reverse).reverse :=
        (List.reverse_reverse _).symm
    _ = s.reverse := by rw [← hs]

theorem trim_fix_head {a : Char} {t : List Char} (h : (a :: t) = jsTrim (a :: t)) :
    jsWhitespace a = false :=
  dropWhile_fix_head (trim_fix_dropWhile h)

theorem trim_fix_last {m : List Char} {z : Char}
    (h : (m ++ [z]) = jsTrim (m ++ [z])) : jsWhitespace z = false := by
  have hr := trim_fix_reverse h
  simp only [List.reverse_append, List.reverse_cons, List.reverse_nil,
    List.nil_append, List.singleton_append] at hr
  exact dropWhile_fix_head hr

theorem not_lineTerminator_of_not_ws {c : Char} (h : jsWhitespace c = false) :
    lineTerminator c = false := by
  by_contra hc
  rw [Bool.not_eq_false] at hc
  rw [jsWhitespace_of_lineTerminator hc] at h
  cases h

theorem titleRegexMatch_iff_no_lt {u : List Char} (hu : u ≠ [])
    (h2 : u = jsTrim u) :
    titleRegexMatch u = true ↔ ∀ c ∈ u, lineTerminator c = false := by
  cases u with
  | nil => exact absurd rfl hu
  | cons c t =>
    have hc0 : jsWhitespace c = false := trim_fix_head h2
    have hlt0 : lineTerminator c = false := not_lineTerminator_of_not_ws hc0
    cases t with
    | nil =>
      constructor
      · intro _ x hx
        rcases List.mem_singleton.mp hx with rfl
        exact hlt0
      · intro _
        show (!jsWhitespace c) = true
        rw [hc0]
        rfl
    | cons d r =>
      rcases List.eq_nil_or_concat (d :: r) with hnil | ⟨mid, z, hmz⟩
      · exact absurd hnil (List.cons_ne_nil d r)
      · rw [List.concat_eq_append] at hmz
        have hz : jsWhitespace z = false := by
          apply trim_fix_last (m := c :: mid)
          rw [List.cons_append, ← hmz]
          exact h2
        have hltz : lineTerminator z = false := not_lineTerminator_of_not_ws hz
        have hmatch : titleRegexMatch (c :: d :: r) =
            ((d :: r).dropLast.all fun x => !lineTerminator x) := by
          show (!jsWhitespace c && !jsWhitespace ((d :: r).getLastD 'x') &&
            (d :: r).dropLast.all (fun x => !lineTerminator x)) = _
          rw [hmz, List.getLastD_concat, hc0, hz]
          simp
        rw [hmatch, hmz, List.dropLast_concat]
        constructor
        · intro hall x hx
          rcases List.mem_cons.mp hx with rfl | hx2
          · exact hlt0
          · rcases List.mem_append.mp hx2 with hx3 | hx4
            · simpa using List.all_eq_true.mp hall x hx3
            · rcases List.mem_singleton.mp hx4 with rfl
              exact hltz
        · intro hall
          apply List.all_eq_true.mpr
          intro x hx
          simpa using hall x (List.mem_cons_of_mem _ (List.mem_append_left _ hx))

set_option maxHeartbeats 1000000 in
/-- C2 amended: `validateField("title", s)` is valid iff s is non-empty
after trimming, s equals its own trim, s contains no two consecutive
WHITESPACE characters (the `\s{2,}` test, not just literal spaces), and s
contains no line-terminator character (`.` in the anchoring regex does not
match line terminators). -/
theorem title_field_iff (s : String) :
    validateField "title" s = some { valid := true, message := "" } ↔
      (jsTrim s.data ≠ [] ∧ s.data = jsTrim s.data ∧
        (∀ i < s.data.length - 1,
          ¬(jsWhitespace (s.data.getD i 'x') = true ∧
            jsWhitespace (s.data.getD (i + 1) 'x') = true)) ∧
        ∀ c ∈ s.data, lineTerminator c = false) := by
  have hvt : (validateField "title" s = some { valid := true, message := "" }) ↔
      titleTest s.data = true := by
    cases hb : titleTest s.data <;> simp [validateField, lookupPattern, hb]
  rw [hvt]
  unfold titleTest
  by_cases h1 : (jsTrim s.data).isEmpty = true
  · rw [if_pos h1]
    constructor
    · intro hc; cases hc
    · rintro ⟨hne, _⟩; exact absurd (List.isEmpty_iff.mp h1) hne
  · rw [if_neg h1]
    have hne : jsTrim s.data ≠ [] := fun hc => h1 (List.isEmpty_iff.mpr hc)
    by_cases h2 : s.data = jsTrim s.data
    · have hbeq : (s.data == jsTrim s.data) = true := beq_iff_eq.mpr h2
      rw [hbeq]
      simp only [Bool.not_true, Bool.false_eq_true, if_false]
      by_cases h3 : hasWsRun2 s.data = true
      · rw [if_pos h3]
        constructor
        · intro hc; cases hc
        · rintro ⟨_, _, hrun, _⟩
          obtain ⟨i, hi, hw1, hw2⟩ := (hasWsRun2_iff s.data).mp h3
          exact (hrun i (by omega) ⟨hw1, hw2⟩).elim
      · rw [if_neg h3]
        have hrun : ∀ i < s.data.length - 1,
            ¬(jsWhitespace (s.data.getD i 'x') = true ∧
              jsWhitespace (s.data.getD (i + 1) 'x') = true) := by
          intro i hi hw
          exact h3 ((hasWsRun2_iff s.data).mpr ⟨i, by omega, hw.1, hw.2⟩)
        have hsne : s.data ≠ [] := by
          intro hc
          exact hne (by rw [← h2]; exact hc)
        rw [titleRegexMatch_iff_no_lt hsne h2]
        constructor
        · intro hall
          exact ⟨hne, h2, hrun, hall⟩
        · rintro ⟨_, _, _, hall⟩
          exact hall
    · have hbeq : (s.data == jsTrim s.data) = false := by
        rw [beq_eq_false_iff_ne]
        exact h2
      rw [hbeq]
      simp only [Bool.not_false, if_true]
      constructor
      · intro hc; cases hc
      · rintro ⟨_, heq, _⟩; exact absurd heq h2

/-- C2 counterexample: for s = "a\nb" the code is invalid (the title
regex's `.` does not match the interior newline), while the claim's three
conditions — non-empty after trim, equal to its own trim, no run of two
or more consecutive SPACES — all hold, so the claimed iff fails. -/
theorem title_claim_counterexample :
    ¬((validateField "title" "a\nb" = some { valid := true, message := "" }) ↔
      (jsTrim "a\nb".data ≠ [] ∧ "a\nb".data = jsTrim "a\nb".data ∧
        ∀ i < "a\nb".data.length - 1,
          ¬("a\nb".data.getD i 'x' = ' ' ∧ "a\nb".data.getD (i + 1) 'x' = ' '))) := by
  decide

theorem char_toNat_ofNat {n : Nat} (h : n < 55296) : (Char.ofNat n).toNat = n := by
  have hv : n.isValidChar := Or.inl h
  simp only [Char.ofNat, hv, dite_true, Char.ofNatAux, Char.toNat]
  rfl

theorem char_eq_of_toNat_eq {a b : Char} (h : a.toNat = b.toNat) : a = b := by
  have h2 := congrArg Char.ofNat h
  rwa [Char.ofNat_toNat, Char.ofNat_toNat] at h2

theorem dateShape_char_iff (c0 c1 c2 c3 c4 c5 c6 c7 c8 c9 : Char) :
    dateShape [c0, c1, c2, c3, c4, c5, c6, c7, c8, c9] = true ↔
      ((48 ≤ c0.toNat ∧ c0.toNat ≤ 57) ∧ (48 ≤ c1.toNat ∧ c1.toNat ≤ 57) ∧
        (48 ≤ c2.toNat ∧ c2.toNat ≤ 57) ∧ (48 ≤ c3.toNat ∧ c3.toNat ≤ 57) ∧
        c4 = '-' ∧ c7 = '-' ∧
        (48 ≤ c5.toNat ∧ c5.toNat ≤ 57) ∧ (48 ≤ c6.toNat ∧ c6.toNat ≤ 57) ∧
        (48 ≤ c8.toNat ∧ c8.toNat ≤ 57) ∧ (48 ≤ c9.toNat ∧ c9.toNat ≤ 57) ∧
        1 ≤ 10 * (c5.toNat - 48) + (c6.toNat - 48) ∧
        10 * (c5.toNat - 48) + (c6.toNat - 48) ≤ 12 ∧
        1 ≤ 10 * (c8.toNat - 48) + (c9.toNat - 48) ∧
        10 * (c8.toNat - 48) + (c9.toNat - 48) ≤ 31) := by
  have h0 : ('0' : Char).toNat = 48 := rfl
  have h1 : ('1' : Char).toNat = 49 := rfl
  have h2 : ('2' : Char).toNat = 50 := rfl
  have h3 : ('3' : Char).toNat = 51 := rfl
  constructor
  · intro h
    unfold dateShape at h
    simp only [Bool.and_eq_true, Bool.or_eq_true, decide_eq_true_eq, isDigitCh,
      and_assoc, or_assoc] at h
    obtain ⟨p1, p2, p3, p4, p5, p6, p7, p8, hh4, hh7, hmo, hda⟩ := h
    have hmo2 : (c5.toNat = 48 ∧ 49 ≤ c6.toNat ∧ c6.toNat ≤ 57) ∨
        (c5.toNat = 49 ∧ 48 ≤ c6.toNat ∧ c6.toNat ≤ 50) := by
      rcases hmo with ⟨h5, h6a, h6b⟩ | ⟨h5, h6a, h6b⟩
      · exact Or.inl ⟨h0 ▸ congrArg Char.toNat h5, h6a, h6b⟩
      · exact Or.inr ⟨h1 ▸ congrArg Char.toNat h5, h6a, h6b⟩
    have hda2 : (c8.toNat = 48 ∧ 49 ≤ c9.toNat ∧ c9.toNat ≤ 57) ∨
        ((c8.toNat = 49 ∨ c8.toNat = 50) ∧ 48 ≤ c9.toNat ∧ c9.toNat ≤ 57) ∨
        (c8.toNat = 51 ∧ (c9.toNat = 48 ∨ c9.toNat = 49)) := by
      rcases hda with ⟨h8, h9a, h9b⟩ | ⟨h8, h9⟩ | ⟨h8, h9⟩
      · exact Or.inl ⟨h0 ▸ congrArg Char.toNat h8, h9a, h9b⟩
      · refine Or.inr (Or.inl ⟨?_, h9⟩)
        rcases h8 with h8 | h8
        · exact Or.inl (h1 ▸ congrArg Char.toNat h8)
        · exact Or.inr (h2 ▸ congrArg Char.toNat h8)
      · refine Or.inr (Or.inr ⟨h3 ▸ congrArg Char.toNat h8, ?_⟩)
        rcases h9 with h9 | h9
        · exact Or.inl (h0 ▸ congrArg Char.toNat h9)
        · exact Or.inr (h1 ▸ congrArg Char.toNat h9)
    exact ⟨⟨p1, p2⟩, ⟨p3, p4⟩, ⟨p5, p6⟩, ⟨p7, p8⟩, hh4, hh7, by omega, by omega,
      by omega, by omega, by omega, by omega, by omega, by omega⟩
  · intro h
    obtain ⟨hd0, hd1, hd2, hd3, hh4, hh7, hd5, hd6, hd8, hd9, hm1, hm2, hdy1, hdy2⟩ := h
    unfold dateShape
    simp only [Bool.and_eq_true, Bool.or_eq_true, decide_eq_true_eq, isDigitCh,
      and_assoc, or_assoc]
    refine ⟨hd0.1, hd0.2, hd1.1, hd1.2, hd2.1, hd2.2, hd3.1, hd3.2, hh4, hh7, ?_, ?_⟩
    · by_cases h5 : c5.toNat = 48
      · exact Or.inl ⟨char_eq_of_toNat_eq (h0 ▸ h5), by omega, by omega⟩
      · have h5e : c5.toNat = 49 := by omega
        exact Or.inr ⟨char_eq_of_toNat_eq (h1 ▸ h5e), by omega, by omega⟩
    · by_cases h8a : c8.toNat = 48
      · exact Or.inl ⟨char_eq_of_toNat_eq (h0 ▸ h8a), by omega, by omega⟩
      · by_cases h8b : c8.toNat = 49
        · exact Or.inr (Or.inl ⟨Or.inl (char_eq_of_toNat_eq (h1 ▸ h8b)), by omega, by omega⟩)
        · by_cases h8c : c8.toNat = 50
          · exact Or.inr (Or.inl ⟨Or.inr (char_eq_of_toNat_eq (h2 ▸ h8c)), by omega, by omega⟩)
          · have h8e : c8.toNat = 51 := by omega
            refine Or.inr (Or.inr ⟨char_eq_of_toNat_eq (h3 ▸ h8e), ?_⟩)
            by_cases h9a : c9.toNat = 48
            · exact Or.inl (char_eq_of_toNat_eq (h0 ▸ h9a))
            · have h9e : c9.toNat = 49 := by omega
              exact Or.inr (char_eq_of_toNat_eq (h1 ▸ h9e))

theorem parseISO_concrete (c0 c1 c2 c3 c4 c5 c6 c7 c8 c9 : Char)
    (hd0 : 48 ≤ c0.toNat ∧ c0.toNat ≤ 57) (hd1 : 48 ≤ c1.toNat ∧ c1.toNat ≤ 57)
    (hd2 : 48 ≤ c2.toNat ∧ c2.toNat ≤ 57) (hd3 : 48 ≤ c3.toNat ∧ c3.toNat ≤ 57)
    (hd5 : 48 ≤ c5.toNat ∧ c5.toNat ≤ 57) (hd6 : 48 ≤ c6.toNat ∧ c6.toNat ≤ 57)
    (hd8 : 48 ≤ c8.toNat ∧ c8.toNat ≤ 57) (hd9 : 48 ≤ c9.toNat ∧ c9.toNat ≤ 57)
    (hh4 : c4 = '-') (hh7 : c7 = '-') :
    (parseISO [c0, c1, c2, c3, c4, c5, c6, c7, c8, c9]).isSome = true ↔
      (1 ≤ 10 * (c5.toNat - 48) + (c6.toNat - 48) ∧
        10 * (c5.toNat - 48) + (c6.toNat - 48) ≤ 12 ∧
        1 ≤ 10 * (c8.toNat - 48) + (c9.toNat - 48) ∧
        10 * (c8.toNat - 48) + (c9.toNat - 48) ≤
          daysInMonth
            (1000 * (c0.toNat - 48) + 100 * (c1.toNat - 48) +
              10 * (c2.toNat - 48) + (c3.toNat - 48))
            (10 * (c5.toNat - 48) + (c6.toNat - 48))) := by
  have hcnd : (isDigitCh c0 && isDigitCh c1 && isDigitCh c2 && isDigitCh c3 &&
      (c4 = '-') && (c7 = '-') && isDigitCh c5 && isDigitCh c6 &&
      isDigitCh c8 && isDigitCh c9) = true := by
    simp only [isDigitCh, hh4, hh7, Bool.and_eq_true, decide_eq_true_eq, and_assoc,
      eq_self_iff_true, true_and, and_true]
    omega
  simp only [parseISO]
  rw [if_pos hcnd]
  simp only [digitVal]
  split
  · rename_i hr
    simp only [Bool.and_eq_true, decide_eq_true_eq, and_assoc] at hr
    exact iff_of_true rfl hr
  · rename_i hr
    refine iff_of_false (by simp) ?_
    intro hc
    apply hr
    simp only [Bool.and_eq_true, decide_eq_true_eq, and_assoc]
    exact hc

theorem dateCodes_expand (y m d : Nat) :
    dateCodes y m d =
      [48 + y / 1000 % 10, 48 + y / 100 % 10, 48 + y / 10 % 10, 48 + y % 10,
        45, 48 + m / 10 % 10, 48 + m % 10, 45, 48 + d / 10 % 10, 48 + d % 10] := by
  simp only [dateCodes, codesOf, List.cons_append, List.nil_append, List.cons.injEq, and_true]
  norm_num

set_option maxHeartbeats 1000000 in
theorem dateTest_iff_values (s : List Char) :
    dateTest s = true ↔
      ∃ y m d : Nat, y ≤ 9999 ∧ 1 ≤ m ∧ m ≤ 12 ∧ 1 ≤ d ∧ d ≤ 31 ∧
        d ≤ daysInMonth y m ∧ s.map Char.toNat = dateCodes y m d := by
  constructor
  · intro h
    rcases s with _ | ⟨c0, s⟩
    · exact absurd h Bool.false_ne_true
    rcases s with _ | ⟨c1, s⟩
    · exact absurd h Bool.false_ne_true
    rcases s with _ | ⟨c2, s⟩
    · exact absurd h Bool.false_ne_true
    rcases s with _ | ⟨c3, s⟩
    · exact absurd h Bool.false_ne_true
    rcases s with _ | ⟨c4, s⟩
    · exact absurd h Bool.false_ne_true
    rcases s with _ | ⟨c5, s⟩
    · exact absurd h Bool.false_ne_true
    rcases s with _ | ⟨c6, s⟩
    · exact absurd h Bool.false_ne_true
    rcases s with _ | ⟨c7, s⟩
    · exact absurd h Bool.false_ne_true
    rcases s with _ | ⟨c8, s⟩
    · exact absurd h Bool.false_ne_true
    rcases s with _ | ⟨c9, s⟩
    · exact absurd h Bool.false_ne_true
    rcases s with _ | ⟨c10, s⟩
    case cons.cons.cons.cons.cons.cons.cons.cons.cons.cons.cons =>
      exact absurd h Bool.false_ne_true
    unfold dateTest at h
    simp only [Bool.and_eq_true] at h
    obtain ⟨hsh, hp⟩ := h
    rw [dateShape_char_iff] at hsh
    obtain ⟨hd0, hd1, hd2, hd3, hh4, hh7, hd5, hd6, hd8, hd9, hm1, hm2, hdy1, hdy2⟩ := hsh
    rw [parseISO_concrete c0 c1 c2 c3 c4 c5 c6 c7 c8 c9
      hd0 hd1 hd2 hd3 hd5 hd6 hd8 hd9 hh4 hh7] at hp
    obtain ⟨hr1, hr2, hr3, hr4⟩ := hp
    have hc4 : c4.toNat = 45 := by rw [hh4]; rfl
    have hc7 : c7.toNat = 45 := by rw [hh7]; rfl
    refine ⟨1000 * (c0.toNat - 48) + 100 * (c1.toNat - 48) +
        10 * (c2.toNat - 48) + (c3.toNat - 48),
      10 * (c5.toNat - 48) + (c6.toNat - 48),
      10 * (c8.toNat - 48) + (c9.toNat - 48),
      by omega, hr1, hr2, hr3, hdy2, hr4, ?_⟩
    rw [dateCodes_expand]
    simp only [List.map_cons, List.map_nil, List.cons.injEq, and_true]
    omega
  · rintro ⟨y, m, d, hy, hm1, hm2, hd1, hd2, hdm, hcodes⟩
    have hs : s = (dateCodes y m d).map Char.ofNat := by
      have hmapped := congrArg (List.map Char.ofNat) hcodes
      rw [List.map_map] at hmapped
      have hid : s.map (Char.ofNat ∘ Char.toNat) = s := by
        have hcong : ∀ c ∈ s, (Char.ofNat ∘ Char.toNat) c = id c := by
          intro c _
          simp [Function.comp, Char.ofNat_toNat]
        rw [List.map_congr_left hcong, List.map_id]
      rw [hid] at hmapped
      exact hmapped
    rw [hs, dateCodes_expand]
    simp only [List.map_cons, List.map_nil]
    have t0 : (Char.ofNat (48 + y / 1000 % 10)).toNat = 48 + y / 1000 % 10 :=
      char_toNat_ofNat (by omega)
    have t1 : (Char.ofNat (48 + y / 100 % 10)).toNat = 48 + y / 100 % 10 :=
      char_toNat_ofNat (by omega)
    have t2 : (Char.ofNat (48 + y / 10 % 10)).toNat = 48 + y / 10 % 10 :=
      char_toNat_ofNat (by omega)
    have t3 : (Char.ofNat (48 + y % 10)).toNat = 48 + y % 10 :=
      char_toNat_ofNat (by omega)
    have t5 : (Char.ofNat (48 + m / 10 % 10)).toNat = 48 + m / 10 % 10 :=
      char_toNat_ofNat (by omega)
    have t6 : (Char.ofNat (48 + m % 10)).toNat = 48 + m % 10 :=
      char_toNat_ofNat (by omega)
    have t8 : (Char.ofNat (48 + d / 10 % 10)).toNat = 48 + d / 10 % 10 :=
      char_toNat_ofNat (by omega)
    have t9 : (Char.ofNat (48 + d % 10)).toNat = 48 + d % 10 :=
      char_toNat_ofNat (by omega)
    have t45 : (Char.ofNat 45) = '-' := by decide
    rw [t45]
    unfold dateTest
    simp only [Bool.and_eq_true]
    constructor
    · rw [dateShape_char_iff]
      simp only [t0, t1, t2, t3, t5, t6, t8, t9]
      refine ⟨⟨by omega, by omega⟩, ⟨by omega, by omega⟩, ⟨by omega, by omega⟩,
        ⟨by omega, by omega⟩, by trivial, by trivial, ⟨by omega, by omega⟩, ⟨by omega, by omega⟩,
        ⟨by omega, by omega⟩, ⟨by omega, by omega⟩, by omega, by omega, by omega, by omega⟩
    · rw [parseISO_concrete _ _ _ _ _ _ _ _ _ _
        (by rw [t0]; omega) (by rw [t1]; omega) (by rw [t2]; omega) (by rw [t3]; omega)
        (by rw [t5]; omega) (by rw [t6]; omega) (by rw [t8]; omega) (by rw [t9]; omega)
        rfl rfl]
      simp only [t0, t1, t2, t3, t5, t6, t8, t9]
      have hY : 1000 * (48 + y / 1000 % 10 - 48) + 100 * (48 + y / 100 % 10 - 48) +
          10 * (48 + y / 10 % 10 - 48) + (48 + y % 10 - 48) = y := by omega
      have hM : 10 * (48 + m / 10 % 10 - 48) + (48 + m % 10 - 48) = m := by omega
      have hD : 10 * (48 + d / 10 % 10 - 48) + (48 + d % 10 - 48) = d := by omega
      rw [hY, hM, hD]
      exact ⟨hm1, hm2, hd1, hdm⟩

/-- C7: `validateField("date", s)` is valid exactly when s has the
`YYYY-MM-DD` shape with month 01–12 and day 01–31 and names a real
calendar date (day within the month's length, written here through the
decimal digit codes of the year, month and day values); in particular
"2025-02-30" is invalid despite matching the regex shape, and
"2025-10-20" is valid. -/
theorem date_field_iff :
    (∀ s : String, validateField "date" s = some { valid := true, message := "" } ↔
      ∃ y m d : Nat, y ≤ 9999 ∧ 1 ≤ m ∧ m ≤ 12 ∧ 1 ≤ d ∧ d ≤ 31 ∧
        d ≤ daysInMonth y m ∧ s.data.map Char.toNat = dateCodes y m d) ∧
    validateField "date" "2025-02-30" =
      some { valid := false, message := "Enter date in YYYY-MM-DD format (e.g., 2025-10-20)" } ∧
    validateField "date" "2025-10-20" = some { valid := true, message := "" } := by
  refine ⟨?_, by decide, by decide⟩
  intro s
  have hvt : (validateField "date" s = some { valid := true, message := "" }) ↔
      dateTest s.data = true := by
    cases hb : dateTest s.data <;> simp [validateField, lookupPattern, hb]
  rw [hvt]
  exact dateTest_iff_values s.data

end CampusPlanner
